import Mathlib

/- Shallow embedding of the generation/update orchestration pipeline of
   src/app/code_gen_agent.py.

   Modelling conventions:
   * Python strings are lists of characters (abbrev Str).
   * Python dicts are association lists kept in insertion order; writing a
     key that is already present replaces its value in place, writing a new
     key appends it at the end (exactly the observable behaviour of dicts).
   * The external text-generation service (call_model) and the standard
     json.loads parser are external capabilities, not code of the
     repository; they are modelled as oracle parameters whose results are
     universally quantified in every theorem.
   * Character classes (str.strip whitespace, str.splitlines line breaks)
     are modelled on their documented character sets. -/

abbrev Str := List Char

/-- Whitespace stripped by str.strip and str.rstrip and matched by the
regex whitespace class: space, tab, newline, carriage return, vertical
tab, form feed. -/
def isPyWhite (c : Char) : Bool :=
  c == ' ' || c == '\t' || c == '\n' || c == '\r' ||
  c == Char.ofNat 11 || c == Char.ofNat 12

/-- Line separators recognised by str.splitlines. -/
def isLineBreak (c : Char) : Bool :=
  c == '\n' || c == '\r' || c == Char.ofNat 11 || c == Char.ofNat 12 ||
  c == Char.ofNat 28 || c == Char.ofNat 29 || c == Char.ofNat 30 ||
  c == Char.ofNat 133 || c == Char.ofNat 8232 || c == Char.ofNat 8233

/-- str.strip with no argument: drop whitespace from both ends. -/
def pyStrip (cs : Str) : Str :=
  ((cs.dropWhile isPyWhite).reverse.dropWhile isPyWhite).reverse

/-- str.rstrip with no argument: drop trailing whitespace. -/
def pyRstrip (cs : Str) : Str :=
  (cs.reverse.dropWhile isPyWhite).reverse

/-- str.lower, on the ASCII range. -/
def pyLower (cs : Str) : Str :=
  cs.map Char.toLower

/-- Dict lookup (d[k] as an Option). -/
def dlookup (d : List (Str × Str)) (k : Str) : Option Str :=
  match d with
  | [] => none
  | (a, b) :: t => if a = k then some b else dlookup t k

/-- Dict d.get(k, default-empty-string). -/
def dget (d : List (Str × Str)) (k : Str) : Str :=
  (dlookup d k).getD []

/-- Dict assignment d[k] = v: replace in place if the key exists,
otherwise append at the end (Python dicts preserve the original position
of an overwritten key). -/
def dictSet (d : List (Str × Str)) (k : Str) (v : Str) : List (Str × Str) :=
  if d.any (fun e => e.1 = k) then
    d.map (fun e => if e.1 = k then (k, v) else e)
  else d ++ [(k, v)]

/-- Dict d.update(e): assign every entry of e into d, in order. -/
def dictMerge (d e : List (Str × Str)) : List (Str × Str) :=
  e.foldl (fun acc kv => dictSet acc kv.1 kv.2) d

/- ------------------------------------------------------------------
   chunk_requirement (src/app/code_gen_agent.py lines 215-223)

   while start < n: end = min(start + max_chars, n);
   chunks.append(text[start:end]); start = end

   The loop is modelled with structural fuel; text.length steps always
   suffice when max_chars is positive (each iteration consumes at least
   one character).  With max_chars = 0 the Python loop does not
   terminate, so no claim below instantiates it that way.
   ------------------------------------------------------------------ -/

def chunkAux : Nat → Str → Nat → List Str
  | 0, _, _ => []
  | fuel + 1, text, maxChars =>
    if text.isEmpty then []
    else text.take maxChars :: chunkAux fuel (text.drop maxChars) maxChars

def chunk_requirement (text : Str) (maxChars : Nat) : List Str :=
  chunkAux text.length text maxChars

theorem chunkAux_spec (maxChars : Nat) (hmc : 0 < maxChars) :
    ∀ (fuel : Nat) (text : Str), text.length ≤ fuel →
      (chunkAux fuel text maxChars).flatten = text ∧
        ∀ c ∈ chunkAux fuel text maxChars, c.length ≤ maxChars := by
  intro fuel
  induction fuel with
  | zero =>
    intro text h
    have htext : text = [] := List.eq_nil_of_length_eq_zero (Nat.le_zero.mp h)
    subst htext
    exact ⟨rfl, by intro c hc; cases hc⟩
  | succ n ih =>
    intro text h
    cases text with
    | nil => exact ⟨rfl, by intro c hc; cases hc⟩
    | cons a t =>
      have hstep : chunkAux (n + 1) (a :: t) maxChars =
          (a :: t).take maxChars :: chunkAux n ((a :: t).drop maxChars) maxChars := by
        rw [chunkAux]
        rfl
      have hlen : ((a :: t).drop maxChars).length ≤ n := by
        rw [List.length_drop]
        have : (a :: t).length = t.length + 1 := List.length_cons a t
        omega
      have ihd := ih ((a :: t).drop maxChars) hlen
      constructor
      · rw [hstep, List.flatten_cons, ihd.1, List.take_append_drop]
      · intro c hc
        rw [hstep] at hc
        rcases List.mem_cons.mp hc with hc | hc
        · subst hc
          rw [List.length_take]
          exact min_le_left _ _
        · exact ihd.2 c hc

/-- C4: for every input text and positive maxChars, chunk_requirement
returns slices whose concatenation reconstructs the input exactly and
whose lengths are all at most maxChars (so the slices are contiguous,
non-overlapping and in original order). -/
theorem chunk_requirement_partition (text : Str) (maxChars : Nat) (hmc : 0 < maxChars) :
    (chunk_requirement text maxChars).flatten = text ∧
      ∀ c ∈ chunk_requirement text maxChars, c.length ≤ maxChars :=
  chunkAux_spec maxChars hmc text.length text le_rfl

/-- Witness for C4 at text "abcde" and maxChars 2. -/
theorem chunk_requirement_partition_witness :
    0 < 2 ∧ ((chunk_requirement ("abcde".toList) 2).flatten = ("abcde".toList) ∧
      ∀ c ∈ chunk_requirement ("abcde".toList) 2, c.length ≤ 2) :=
  ⟨by decide, chunk_requirement_partition ("abcde".toList) 2 (by decide)⟩

/- ------------------------------------------------------------------
   parse_llm_files (src/app/code_gen_agent.py lines 118-142) and the
   FILE_MARKER regex (line 30).

   FILE_MARKER matches a line against the anchored pattern
   marker-open "<<<FILE:", a lazy non-empty group, ">>>", then optional
   whitespace up to the end of the line.  The lazy group takes the
   shortest prefix after "<<<FILE:" that is followed by ">>>" and
   whitespace-only text reaching the end.
   ------------------------------------------------------------------ -/

def markerPre : Str := ['<', '<', '<', 'F', 'I', 'L', 'E', ':']

def tripleGt : Str := ['>', '>', '>']

/-- Boolean prefix test on character lists. -/
def strPrefix : Str → Str → Bool
  | [], _ => true
  | _ :: _, [] => false
  | a :: as, b :: bs => if a = b then strPrefix as bs else false

/-- Does rest match close-marker-then-whitespace to the end of the line
(the part of the FILE_MARKER pattern after the lazy group)? -/
def endMatch (rest : Str) : Bool :=
  strPrefix tripleGt rest && (rest.drop 3).all isPyWhite

/-- The lazy group of FILE_MARKER: the shortest non-empty prefix whose
remainder satisfies endMatch. -/
def lazyGroup : Str → Option Str
  | [] => none
  | c :: rest =>
    if endMatch rest then some [c]
    else (lazyGroup rest).map (fun g => c :: g)

/-- FILE_MARKER.match on one (already stripped) line: the line must start
with the 8-character open marker; the group starts right after it. -/
def matchFileMarker (line : Str) : Option Str :=
  if strPrefix markerPre line then lazyGroup (line.drop 8) else none

/-- str.splitlines worker: acc is the current line accumulated in
reverse; a carriage return followed by a newline counts as one break; a
trailing break does not open a final empty line. -/
def splitlinesAux : List Char → List Char → List (List Char)
  | acc, [] => [acc.reverse]
  | acc, '\r' :: '\n' :: rest =>
    acc.reverse :: (if rest.isEmpty then [] else splitlinesAux [] rest)
  | acc, c :: rest =>
    if isLineBreak c then
      acc.reverse :: (if rest.isEmpty then [] else splitlinesAux [] rest)
    else splitlinesAux (c :: acc) rest

/-- str.splitlines: the empty string yields no lines. -/
def splitlinesPy (cs : Str) : List Str :=
  if cs.isEmpty then [] else splitlinesAux [] cs

/-- The join of a list of lines with a single newline between
consecutive lines. -/
def joinNl : List Str → Str
  | [] => []
  | [x] => x
  | x :: xs => x ++ '\n' :: joinNl xs

/-- Flush the buffered content lines of the current path into the files
dict, normalising the content to right-stripped text plus one newline
(matches the two flush sites of parse_llm_files). -/
def flushBuffer (files : List (Str × Str)) (current : Option Str) (buffer : List Str) :
    List (Str × Str) :=
  match current with
  | none => files
  | some p => dictSet files p (pyRstrip (joinNl buffer) ++ ['\n'])

/-- The line loop of parse_llm_files: a marker line flushes the previous
block and opens a new one; any other line is content if a block is open
and is discarded otherwise. -/
def parseLoop : List Str → List (Str × Str) → Option Str → List Str → List (Str × Str)
  | [], files, current, buffer => flushBuffer files current buffer
  | line :: rest, files, current, buffer =>
    match matchFileMarker (pyStrip line) with
    | some g => parseLoop rest (flushBuffer files current buffer) (some (pyStrip g)) []
    | none =>
      match current with
      | none => parseLoop rest files current buffer
      | some _ => parseLoop rest files current (buffer ++ [line])

def parse_llm_files (text : Str) : List (Str × Str) :=
  parseLoop (splitlinesPy text) [] none []

/-- One delimited file block header line for a path. -/
def markerLine (p : Str) : Str := markerPre ++ p ++ tripleGt

/-- The response text built by the orchestrator (lines 415-417 and
668-671): the blocks header-line-then-content joined by one blank
line. -/
def formatFileBlocks : List (Str × Str) → Str
  | [] => []
  | [(p, c)] => markerLine p ++ '\n' :: c
  | (p, c) :: rest => (markerLine p ++ '\n' :: c) ++ '\n' :: '\n' :: formatFileBlocks rest

/-- C6 counterexample input: one file whose content is itself a marker
line. -/
def cexMapping : List (Str × Str) := [(("a".toList), ("<<<FILE:b>>>".toList))]

/-- C6 counterexample: re-parsing the formatted blocks of cexMapping
yields two entries instead of one, so no per-content normalisation can
give back the original one-entry mapping. -/
theorem file_block_roundtrip_cex :
    parse_llm_files (formatFileBlocks cexMapping) =
      [(("a".toList), ['\n']), (("b".toList), ['\n'])] ∧
      cexMapping.length = 1 := by
  constructor
  · decide
  · rfl

/- ------------------------------------------------------------------
   Specification-side helpers for the round-trip proof: full and
   splitlines-style decompositions of a string at newline characters.
   These are proof infrastructure, not translations of source code.
   ------------------------------------------------------------------ -/

/-- Full split at newline characters; always non-empty ("a\n" gives two
pieces, the second empty). -/
def nlSplit : List Char → List (List Char)
  | [] => [[]]
  | c :: rest =>
    if c = '\n' then [] :: nlSplit rest
    else (c :: (nlSplit rest).headI) :: (nlSplit rest).tail

/-- Split at newline characters the way splitlines does on a non-empty
string: a trailing newline does not open a final empty piece. -/
def nlLines : List Char → List (List Char)
  | [] => [[]]
  | c :: rest =>
    if c = '\n' then [] :: (if rest.isEmpty then [] else nlLines rest)
    else (c :: (nlLines rest).headI) :: (nlLines rest).tail

/-- A string all of whose line-break characters are plain newlines. -/
def onlyNl (cs : Str) : Prop :=
  ∀ ch ∈ cs, isLineBreak ch = true → ch = '\n'

theorem nlSplit_ne_nil (cs : List Char) : nlSplit cs ≠ [] := by
  cases cs with
  | nil => simp [nlSplit]
  | cons c rest =>
    rw [nlSplit]
    split <;> simp

theorem nlLines_ne_nil (cs : List Char) : nlLines cs ≠ [] := by
  cases cs with
  | nil => simp [nlLines]
  | cons c rest =>
    rw [nlLines]
    split <;> simp

theorem headI_cons_tail {α : Type} [Inhabited α] (l : List α) (h : l ≠ []) :
    l.headI :: l.tail = l := by
  cases l with
  | nil => exact absurd rfl h
  | cons a t => rfl

theorem headI_append {α : Type} [Inhabited α] (xs ys : List α) (h : xs ≠ []) :
    (xs ++ ys).headI = xs.headI := by
  cases xs with
  | nil => exact absurd rfl h
  | cons a t => rfl

theorem tail_append_of_ne_nil {α : Type} (xs ys : List α) (h : xs ≠ []) :
    (xs ++ ys).tail = xs.tail ++ ys := by
  cases xs with
  | nil => exact absurd rfl h
  | cons a t => rfl

set_option maxHeartbeats 2000000

theorem splitlinesAux_nil (acc : List Char) : splitlinesAux acc [] = [acc.reverse] := rfl

theorem splitlinesAux_cons_nl (acc rest : List Char) :
    splitlinesAux acc ('\n' :: rest) =
      acc.reverse :: (if rest.isEmpty then [] else splitlinesAux [] rest) := by
  rw [splitlinesAux.eq_def]
  split
  · rename_i h
    cases h
  · rename_i h
    injection h with h1 h2
    exact absurd h1 (by decide)
  · rename_i c r h heq
    injection heq with h1 h2
    subst h1; subst h2
    simp [isLineBreak]

theorem splitlinesAux_cons_of_not_break (acc rest : List Char) (c : Char)
    (hb : isLineBreak c = false) :
    splitlinesAux acc (c :: rest) = splitlinesAux (c :: acc) rest := by
  rw [splitlinesAux.eq_def]
  split
  · rename_i h
    cases h
  · rename_i h
    injection h with h1 h2
    subst h1
    simp [isLineBreak] at hb
  · rename_i c2 r h heq
    injection heq with h1 h2
    subst h1; subst h2
    simp [hb]

theorem splitlinesAux_eq_nlLines (cs : List Char) (h : onlyNl cs) (acc : List Char) :
    splitlinesAux acc cs = (acc.reverse ++ (nlLines cs).headI) :: (nlLines cs).tail := by
  induction cs generalizing acc with
  | nil => simp [splitlinesAux_nil, nlLines]
  | cons c rest ih =>
    have hrest : onlyNl rest := fun ch hm hb => h ch (List.mem_cons_of_mem c hm) hb
    by_cases hc : c = '\n'
    · subst hc
      rw [splitlinesAux_cons_nl]
      have hnl : nlLines ('\n' :: rest) = [] :: (if rest.isEmpty then [] else nlLines rest) := by
        rw [nlLines]
        simp
      rw [hnl]
      by_cases hre : rest.isEmpty
      · simp [hre]
      · simp only [hre, if_false, Bool.false_eq_true, List.headI_cons, List.tail_cons,
          List.append_nil]
        rw [ih hrest []]
        simp only [List.reverse_nil, List.nil_append]
        rw [headI_cons_tail _ (nlLines_ne_nil rest)]
    · have hb : isLineBreak c = false := by
        cases hib : isLineBreak c with
        | false => rfl
        | true => exact absurd (h c (List.mem_cons_self c rest) hib) hc
      rw [splitlinesAux_cons_of_not_break _ _ _ hb, ih hrest (c :: acc)]
      rw [nlLines]
      simp only [hc, if_false]
      simp

/-- On a non-empty string whose only break characters are newlines,
splitlines agrees with nlLines. -/
theorem splitlinesPy_eq_nlLines (cs : List Char) (hne : cs ≠ []) (h : onlyNl cs) :
    splitlinesPy cs = nlLines cs := by
  rw [splitlinesPy]
  have : cs.isEmpty = false := by
    cases cs with
    | nil => exact absurd rfl hne
    | cons a t => rfl
  rw [this]
  simp only [Bool.false_eq_true, if_false]
  rw [splitlinesAux_eq_nlLines cs h []]
  simp only [List.reverse_nil, List.nil_append]
  exact headI_cons_tail _ (nlLines_ne_nil cs)

theorem nlLines_append_nl (a b : List Char) :
    nlLines (a ++ '\n' :: b) = nlSplit a ++ (if b.isEmpty then [] else nlLines b) := by
  induction a with
  | nil =>
    rw [List.nil_append, nlLines]
    simp [nlSplit]
  | cons c a2 ih =>
    by_cases hc : c = '\n'
    · subst hc
      rw [List.cons_append, nlLines]
      have hne : (a2 ++ '\n' :: b).isEmpty = false := by
        cases a2 <;> rfl
      simp only [if_pos rfl, hne, Bool.false_eq_true, if_false]
      rw [ih, nlSplit]
      simp
    · rw [List.cons_append, nlLines]
      simp only [hc, if_false]
      rw [ih, nlSplit]
      simp only [hc, if_false]
      rw [headI_append _ _ (nlSplit_ne_nil a2), tail_append_of_ne_nil _ _ (nlSplit_ne_nil a2)]
      simp

theorem nlSplit_cases (cs : List Char) :
    nlSplit cs = nlLines cs ∨
      (nlSplit cs = nlLines cs ++ [[]] ∧ nlLines cs ≠ []) := by
  induction cs with
  | nil => exact Or.inl rfl
  | cons c rest ih =>
    by_cases hc : c = '\n'
    · subst hc
      rw [nlSplit, nlLines]
      simp only [if_pos rfl]
      by_cases hre : rest.isEmpty
      · have : rest = [] := by
          cases rest with
          | nil => rfl
          | cons x t => exact absurd hre (by simp)
        subst this
        exact Or.inr ⟨rfl, by simp⟩
      · simp only [hre, Bool.false_eq_true, if_false]
        rcases ih with h | ⟨h, hne⟩
        · exact Or.inl (by rw [h])
        · exact Or.inr ⟨by rw [h]; rfl, by simp⟩
    · rw [nlSplit, nlLines]
      simp only [hc, if_false]
      rcases ih with h | ⟨h, hne⟩
      · exact Or.inl (by rw [h])
      · refine Or.inr ⟨?_, by simp⟩
        rw [h, headI_append _ _ hne, tail_append_of_ne_nil _ _ hne]
        simp

theorem joinNl_cons (x : Str) (xs : List Str) (h : xs ≠ []) :
    joinNl (x :: xs) = x ++ '\n' :: joinNl xs := by
  cases xs with
  | nil => exact absurd rfl h
  | cons y ys => rfl

theorem joinNl_nlSplit (cs : List Char) : joinNl (nlSplit cs) = cs := by
  induction cs with
  | nil => rfl
  | cons c rest ih =>
    by_cases hc : c = '\n'
    · subst hc
      have h1 : nlSplit ('\n' :: rest) = [] :: nlSplit rest := by
        rw [nlSplit]
        simp
      rw [h1, joinNl_cons _ _ (nlSplit_ne_nil rest), ih]
      rfl
    · have h1 : nlSplit (c :: rest) = (c :: (nlSplit rest).headI) :: (nlSplit rest).tail := by
        rw [nlSplit]
        simp [hc]
      rw [h1]
      rcases hS : nlSplit rest with _ | ⟨l, ls⟩
      · exact absurd hS (nlSplit_ne_nil rest)
      · rw [hS] at ih
        simp only [List.headI_cons, List.tail_cons]
        cases ls with
        | nil => exact congrArg (fun t => c :: t) ih
        | cons y ys => exact congrArg (fun t => c :: t) ih

theorem joinNl_append_empty (xs : List Str) (h : xs ≠ []) :
    joinNl (xs ++ [[]]) = joinNl xs ++ ['\n'] := by
  induction xs with
  | nil => exact absurd rfl h
  | cons x xs ih =>
    cases xs with
    | nil => rfl
    | cons y ys =>
      rw [List.cons_append, joinNl_cons x ((y :: ys) ++ [[]]) (by simp),
        ih (by simp), joinNl_cons x (y :: ys) (by simp)]
      simp

theorem pyRstrip_append_nl (z : List Char) : pyRstrip (z ++ ['\n']) = pyRstrip z := by
  rw [pyRstrip, pyRstrip, List.reverse_append]
  simp only [List.reverse_cons, List.reverse_nil, List.nil_append, List.singleton_append]
  rw [List.dropWhile_cons]
  simp [isPyWhite]

theorem pyRstrip_joinNl_nlLines (cs : List Char) :
    pyRstrip (joinNl (nlLines cs)) = pyRstrip cs := by
  rcases nlSplit_cases cs with hc | ⟨hc, hne⟩
  · rw [← hc, joinNl_nlSplit]
  · have : cs = joinNl (nlLines cs) ++ ['\n'] := by
      conv_lhs => rw [← joinNl_nlSplit cs]
      rw [hc, joinNl_append_empty _ hne]
    conv_rhs => rw [this]
    rw [pyRstrip_append_nl]

theorem pyRstrip_joinNl_nlSplit_pad (cs : List Char) :
    pyRstrip (joinNl (nlSplit cs ++ [[]])) = pyRstrip cs := by
  rw [joinNl_append_empty _ (nlSplit_ne_nil cs), pyRstrip_append_nl, joinNl_nlSplit]

theorem nlSplit_no_nl (a : List Char) (h : ∀ ch ∈ a, ch ≠ '\n') : nlSplit a = [a] := by
  induction a with
  | nil => rfl
  | cons c rest ih =>
    rw [nlSplit]
    have hc : ¬ c = '\n' := h c (List.mem_cons_self c rest)
    simp only [hc, if_false]
    rw [ih (fun ch hm => h ch (List.mem_cons_of_mem c hm))]
    rfl

theorem strPrefix_append_self (a b : Str) : strPrefix a (a ++ b) = true := by
  induction a with
  | nil => rfl
  | cons c as ih =>
    rw [List.cons_append, strPrefix]
    simp [ih]

theorem all_isPyWhite_false_of_gt (xs : Str) (h : '>' ∈ xs) : xs.all isPyWhite = false := by
  cases hall : xs.all isPyWhite with
  | false => rfl
  | true =>
    have := (List.all_eq_true.mp hall) '>' h
    exact absurd this (by decide)

theorem endMatch_pad_false (q : Str) (hq : q ≠ []) : endMatch (q ++ tripleGt) = false := by
  have hmem : '>' ∈ ((q ++ tripleGt).drop 3) := by
    have hsh : q ++ tripleGt = (q ++ ['>', '>']) ++ ['>'] := by
      rw [tripleGt]
      simp
    have hlen : 3 ≤ (q ++ ['>', '>']).length := by
      rw [List.length_append]
      cases q with
      | nil => exact absurd rfl hq
      | cons a t =>
        simp only [List.length_cons, List.length_cons]
        omega
    rw [hsh, List.drop_append_of_le_length hlen]
    exact List.mem_append_right _ (List.mem_singleton.mpr rfl)
  rw [endMatch, all_isPyWhite_false_of_gt _ hmem, Bool.and_false]

theorem lazyGroup_pad (p : Str) (hp : p ≠ []) : lazyGroup (p ++ tripleGt) = some p := by
  induction p with
  | nil => exact absurd rfl hp
  | cons c p2 ih =>
    cases p2 with
    | nil =>
      show lazyGroup (c :: tripleGt) = some [c]
      rw [lazyGroup]
      have : endMatch tripleGt = true := by decide
      rw [this]
      rfl
    | cons d p3 =>
      rw [List.cons_append, lazyGroup, endMatch_pad_false _ (by simp)]
      simp only [Bool.false_eq_true, if_false]
      rw [ih (by simp)]
      rfl

theorem matchFileMarker_markerLine (p : Str) (hp : p ≠ []) :
    matchFileMarker (markerLine p) = some p := by
  rw [matchFileMarker, markerLine]
  have hshape : markerPre ++ p ++ tripleGt = markerPre ++ (p ++ tripleGt) := by simp
  rw [hshape, strPrefix_append_self]
  simp only [if_pos]
  have hdrop : (markerPre ++ (p ++ tripleGt)).drop 8 = p ++ tripleGt := rfl
  rw [hdrop, lazyGroup_pad p hp]

theorem pyStrip_of_edges (x y : Char) (mid : Str)
    (hx : isPyWhite x = false) (hy : isPyWhite y = false) :
    pyStrip (x :: (mid ++ [y])) = x :: (mid ++ [y]) := by
  rw [pyStrip]
  rw [List.dropWhile_cons_of_neg (by simp [hx])]
  have h1 : (x :: (mid ++ [y])).reverse = y :: (mid.reverse ++ [x]) := by simp
  rw [h1, List.dropWhile_cons_of_neg (by simp [hy]), ← h1, List.reverse_reverse]

theorem pyStrip_markerLine (p : Str) : pyStrip (markerLine p) = markerLine p := by
  have hshape : markerLine p = '<' :: ((['<', '<', 'F', 'I', 'L', 'E', ':'] ++ (p ++ ['>', '>'])) ++ ['>']) := by
    rw [markerLine, markerPre, tripleGt]
    simp
  rw [hshape, pyStrip_of_edges '<' '>' _ (by decide) (by decide)]

theorem matchFileMarker_nil : matchFileMarker [] = none := rfl

theorem pyStrip_nil : pyStrip [] = [] := rfl

/- ------------------------------------------------------------------
   Round-trip hypotheses and the amended round-trip theorem for C6.
   ------------------------------------------------------------------ -/

/-- A path that survives the marker round trip: non-empty, unchanged by
stripping, and free of line-break characters. -/
def goodPath (p : Str) : Prop :=
  p ≠ [] ∧ pyStrip p = p ∧ ∀ ch ∈ p, isLineBreak ch = false

/-- A content that survives the round trip: its only break characters
are plain newlines and none of its lines is itself a marker line. -/
def goodContent (c : Str) : Prop :=
  onlyNl c ∧ ∀ line ∈ nlSplit c, matchFileMarker (pyStrip line) = none

/-- A mapping with good paths and contents and pairwise distinct paths. -/
def goodMapping (m : List (Str × Str)) : Prop :=
  (∀ e ∈ m, goodPath e.1 ∧ goodContent e.2) ∧ (m.map Prod.fst).Nodup

instance decGoodPath (p : Str) : Decidable (goodPath p) := by
  unfold goodPath
  infer_instance

instance decGoodContent (c : Str) : Decidable (goodContent c) := by
  unfold goodContent onlyNl
  infer_instance

instance decGoodMapping (m : List (Str × Str)) : Decidable (goodMapping m) := by
  unfold goodMapping
  infer_instance

/-- The content of one parsed block: lines joined, right-stripped, plus
exactly one newline. -/
def normEntry (e : Str × Str) : Str × Str := (e.1, pyRstrip e.2 ++ ['\n'])

/-- The line sequence produced by splitlines on a formatted block list
(specification-side description). -/
def fmtLines : List (Str × Str) → List Str
  | [] => []
  | (p, c) :: rest =>
    markerLine p ::
      (if rest.isEmpty then (if c.isEmpty then [] else nlLines c)
       else nlSplit c ++ [] :: fmtLines rest)

theorem mem_nlLines_subset (c : Str) (l : List Char) (h : l ∈ nlLines c) : l ∈ nlSplit c := by
  rcases nlSplit_cases c with hc | ⟨hc, _⟩
  · rw [hc]; exact h
  · rw [hc]; exact List.mem_append_left _ h

theorem markerLine_no_break (p : Str) (hp : ∀ ch ∈ p, isLineBreak ch = false) :
    ∀ ch ∈ markerLine p, isLineBreak ch = false := by
  intro ch hm
  rw [markerLine] at hm
  rcases List.mem_append.mp hm with hm | hm
  · rcases List.mem_append.mp hm with hm | hm
    · revert hm
      have : ∀ ch ∈ markerPre, isLineBreak ch = false := by decide
      exact this ch
    · exact hp ch hm
  · revert hm
    have : ∀ ch ∈ tripleGt, isLineBreak ch = false := by decide
    exact this ch

theorem markerLine_no_nl (p : Str) (hp : ∀ ch ∈ p, isLineBreak ch = false) :
    ∀ ch ∈ markerLine p, ch ≠ '\n' := by
  intro ch hm he
  subst he
  have := markerLine_no_break p hp '\n' hm
  exact absurd this (by decide)

theorem formatFileBlocks_cons (p c : Str) (rest : List (Str × Str)) :
    formatFileBlocks ((p, c) :: rest) =
      markerLine p ++ '\n' ::
        (if rest.isEmpty then c else c ++ '\n' :: '\n' :: formatFileBlocks rest) := by
  cases rest with
  | nil => rfl
  | cons y ys =>
    show (markerLine p ++ '\n' :: c) ++ '\n' :: '\n' :: formatFileBlocks (y :: ys) = _
    simp

theorem formatFileBlocks_ne_nil (p c : Str) (rest : List (Str × Str)) :
    formatFileBlocks ((p, c) :: rest) ≠ [] := by
  rw [formatFileBlocks_cons, markerLine, markerPre]
  simp

theorem onlyNl_format (m : List (Str × Str))
    (h : ∀ e ∈ m, (∀ ch ∈ e.1, isLineBreak ch = false) ∧ onlyNl e.2) :
    onlyNl (formatFileBlocks m) := by
  induction m with
  | nil => intro ch hm; cases hm
  | cons e rest ih =>
    obtain ⟨p, c⟩ := e
    intro ch hm hb
    rw [formatFileBlocks_cons] at hm
    rcases List.mem_append.mp hm with hm | hm
    · exact absurd hb (by rw [markerLine_no_break p (h (p, c) (List.mem_cons_self _ _)).1 ch hm]; simp)
    · rcases List.mem_cons.mp hm with hm | hm
      · exact hm
      · by_cases hre : rest.isEmpty
        · rw [if_pos hre] at hm
          exact (h (p, c) (List.mem_cons_self _ _)).2 ch hm hb
        · rw [if_neg hre] at hm
          rcases List.mem_append.mp hm with hm | hm
          · exact (h (p, c) (List.mem_cons_self _ _)).2 ch hm hb
          · rcases List.mem_cons.mp hm with hm | hm
            · exact hm
            · rcases List.mem_cons.mp hm with hm | hm
              · exact hm
              · exact ih (fun e he => h e (List.mem_cons_of_mem _ he)) ch hm hb

theorem nlLines_format (m : List (Str × Str)) (p c : Str)
    (hpath : ∀ e ∈ (p, c) :: m, ∀ ch ∈ e.1, isLineBreak ch = false) :
    nlLines (formatFileBlocks ((p, c) :: m)) = fmtLines ((p, c) :: m) := by
  induction m generalizing p c with
  | nil =>
    rw [formatFileBlocks_cons]
    simp only [List.isEmpty_nil, if_pos]
    rw [nlLines_append_nl,
      nlSplit_no_nl (markerLine p) (markerLine_no_nl p (hpath (p, c) (List.mem_cons_self _ _))),
      fmtLines]
    simp
  | cons e m2 ih =>
    obtain ⟨q, d⟩ := e
    rw [formatFileBlocks_cons]
    have hne : ((q, d) :: m2).isEmpty = false := rfl
    rw [hne]
    simp only [Bool.false_eq_true, if_false]
    rw [nlLines_append_nl,
      nlSplit_no_nl (markerLine p) (markerLine_no_nl p (hpath (p, c) (List.mem_cons_self _ _)))]
    have hb1 : (c ++ '\n' :: '\n' :: formatFileBlocks ((q, d) :: m2)).isEmpty = false := by
      cases c <;> rfl
    rw [hb1]
    simp only [Bool.false_eq_true, if_false]
    rw [nlLines_append_nl]
    have hb2 : ('\n' :: formatFileBlocks ((q, d) :: m2)).isEmpty = false := rfl
    rw [hb2]
    simp only [Bool.false_eq_true, if_false]
    have hb3 : nlLines ('\n' :: formatFileBlocks ((q, d) :: m2)) =
        [] :: nlLines (formatFileBlocks ((q, d) :: m2)) := by
      rw [nlLines]
      have : (formatFileBlocks ((q, d) :: m2)).isEmpty = false := by
        have := formatFileBlocks_ne_nil q d m2
        cases hh : formatFileBlocks ((q, d) :: m2) with
        | nil => exact absurd hh this
        | cons a t => rfl
      rw [this]
      simp
    rw [hb3, ih q d (fun e he => hpath e (List.mem_cons_of_mem _ he))]
    simp [fmtLines]

theorem splitlinesPy_format (m : List (Str × Str)) (p c : Str)
    (hgood : goodMapping ((p, c) :: m)) :
    splitlinesPy (formatFileBlocks ((p, c) :: m)) = fmtLines ((p, c) :: m) := by
  rw [splitlinesPy_eq_nlLines _ (formatFileBlocks_ne_nil p c m)
    (onlyNl_format _ (fun e he => ⟨(hgood.1 e he).1.2.2, (hgood.1 e he).2.1⟩))]
  exact nlLines_format m p c (fun e he => (hgood.1 e he).1.2.2)

theorem parseLoop_nil (files : List (Str × Str)) (current : Option Str) (buffer : List Str) :
    parseLoop [] files current buffer = flushBuffer files current buffer := rfl

theorem parseLoop_cons (line : Str) (rest : List Str) (files : List (Str × Str))
    (current : Option Str) (buffer : List Str) :
    parseLoop (line :: rest) files current buffer =
      match matchFileMarker (pyStrip line) with
      | some g => parseLoop rest (flushBuffer files current buffer) (some (pyStrip g)) []
      | none =>
        match current with
        | none => parseLoop rest files current buffer
        | some _ => parseLoop rest files current (buffer ++ [line]) := rfl

theorem dictSet_append (d : List (Str × Str)) (k : Str) (v : Str)
    (h : ∀ e ∈ d, e.1 ≠ k) : dictSet d k v = d ++ [(k, v)] := by
  rw [dictSet]
  have hany : d.any (fun e => e.1 = k) = false := by
    rw [List.any_eq_false]
    intro e he
    simpa using h e he
  rw [hany]
  simp

theorem parseLoop_content (cl : List Str)
    (hcl : ∀ l ∈ cl, matchFileMarker (pyStrip l) = none) :
    ∀ (rest : List Str) (files : List (Str × Str)) (p : Str) (buf : List Str),
      parseLoop (cl ++ rest) files (some p) buf = parseLoop rest files (some p) (buf ++ cl) := by
  induction cl with
  | nil =>
    intro rest files p buf
    simp
  | cons l cl ih =>
    intro rest files p buf
    rw [List.cons_append, parseLoop_cons, hcl l (List.mem_cons_self _ _)]
    show parseLoop (cl ++ rest) files (some p) (buf ++ [l]) = _
    rw [ih (fun x hx => hcl x (List.mem_cons_of_mem _ hx)) rest files p (buf ++ [l])]
    simp

theorem parseLoop_blocks (m : List (Str × Str)) :
    ∀ (p c : Str) (files : List (Str × Str)),
      goodMapping ((p, c) :: m) →
      (∀ e ∈ files, e.1 ∉ ((p, c) :: m).map Prod.fst) →
      parseLoop
        (if m.isEmpty then (if c.isEmpty then [] else nlLines c)
         else nlSplit c ++ [] :: fmtLines m)
        files (some p) [] =
      files ++ ((p, c) :: m).map normEntry := by
  induction m with
  | nil =>
    intro p c files hgood hdisj
    have hpkey : ∀ e ∈ files, e.1 ≠ p := by
      intro e he hk
      exact hdisj e he (by rw [hk]; simp)
    simp only [List.isEmpty_nil, if_pos]
    cases c with
    | nil =>
      simp only [List.isEmpty_nil, if_pos]
      rw [parseLoop_nil, flushBuffer, dictSet_append _ _ _ hpkey]
      rfl
    | cons a t =>
      have hcemp : (a :: t).isEmpty = false := rfl
      rw [hcemp]
      simp only [Bool.false_eq_true, if_false]
      have hlines : ∀ l ∈ nlLines (a :: t), matchFileMarker (pyStrip l) = none := by
        intro l hl
        exact (hgood.1 (p, a :: t) (List.mem_cons_self _ _)).2.2 l (mem_nlLines_subset _ l hl)
      have hrun := parseLoop_content (nlLines (a :: t)) hlines [] files p []
      rw [List.append_nil] at hrun
      rw [hrun, parseLoop_nil, flushBuffer]
      simp only [List.nil_append]
      rw [pyRstrip_joinNl_nlLines, dictSet_append _ _ _ hpkey]
      rfl
  | cons e m2 ih =>
    intro p c files hgood hdisj
    obtain ⟨q, d⟩ := e
    have hq : goodPath q := (hgood.1 (q, d) (List.mem_cons_of_mem _ (List.mem_cons_self _ _))).1
    have hclines : ∀ l ∈ nlSplit c, matchFileMarker (pyStrip l) = none :=
      (hgood.1 (p, c) (List.mem_cons_self _ _)).2.2
    simp only [List.isEmpty_cons, Bool.false_eq_true, if_false]
    have hcont := parseLoop_content (nlSplit c) hclines
      ([] :: fmtLines ((q, d) :: m2)) files p []
    rw [List.nil_append] at hcont
    rw [hcont]
    rw [parseLoop_cons]
    rw [pyStrip_nil, matchFileMarker_nil]
    show parseLoop (fmtLines ((q, d) :: m2)) files (some p) (nlSplit c ++ [[]]) = _
    rw [fmtLines]
    rw [parseLoop_cons, pyStrip_markerLine, matchFileMarker_markerLine q hq.1]
    show parseLoop _ (flushBuffer files (some p) (nlSplit c ++ [[]])) (some (pyStrip q)) [] = _
    rw [hq.2.1, flushBuffer, pyRstrip_joinNl_nlSplit_pad]
    have hpkey : ∀ e ∈ files, e.1 ≠ p := by
      intro e he hk
      exact hdisj e he (by rw [hk]; simp)
    rw [dictSet_append _ _ _ hpkey]
    have hnodup := hgood.2
    rw [List.map_cons, List.nodup_cons] at hnodup
    have hgood2 : goodMapping ((q, d) :: m2) :=
      ⟨fun e he => hgood.1 e (List.mem_cons_of_mem _ he), hnodup.2⟩
    have hdisj2 : ∀ e ∈ files ++ [(p, pyRstrip c ++ ['\n'])],
        e.1 ∉ ((q, d) :: m2).map Prod.fst := by
      intro e he
      rcases List.mem_append.mp he with he | he
      · intro hk
        exact hdisj e he (by simp only [List.map_cons]; exact List.mem_cons_of_mem _ hk)
      · rcases List.mem_singleton.mp he with rfl
        simpa using hnodup.1
    rw [ih q d (files ++ [(p, pyRstrip c ++ ['\n'])]) hgood2 hdisj2]
    simp [normEntry]

/-- C6 (amended): for every mapping whose paths are non-empty, free of
line-break characters and unchanged by whitespace stripping, with
pairwise distinct paths, and whose contents use only plain newlines as
line breaks and contain no line that strips to a FILE marker,
formatting into delimited blocks and re-parsing with parse_llm_files
yields the original mapping with each content right-stripped of
trailing whitespace and terminated by exactly one newline. -/
theorem file_block_roundtrip (m : List (Str × Str)) (h : goodMapping m) :
    parse_llm_files (formatFileBlocks m) = m.map normEntry := by
  cases m with
  | nil => rfl
  | cons e rest =>
    obtain ⟨p, c⟩ := e
    have hp : goodPath p := (h.1 (p, c) (List.mem_cons_self _ _)).1
    rw [parse_llm_files, splitlinesPy_format rest p c h, fmtLines]
    rw [parseLoop_cons, pyStrip_markerLine, matchFileMarker_markerLine p hp.1]
    show parseLoop _ (flushBuffer [] none []) (some (pyStrip p)) [] = _
    rw [hp.2.1, flushBuffer]
    have := parseLoop_blocks rest p c [] h (by intro e he; cases he)
    rw [this]
    simp

/-- Witness for the amended C6 on a concrete two-file mapping. -/
theorem file_block_roundtrip_witness :
    goodMapping [(("a.ts".toList), ("hello".toList)), (("b.ts".toList), ("x\n\nyy".toList))] ∧
      parse_llm_files (formatFileBlocks
        [(("a.ts".toList), ("hello".toList)), (("b.ts".toList), ("x\n\nyy".toList))]) =
      [(("a.ts".toList), ("hello\n".toList)), (("b.ts".toList), ("x\n\nyy\n".toList))] :=
  ⟨by decide,
    (file_block_roundtrip _ (by decide)).trans (by decide)⟩

/- ------------------------------------------------------------------
   relevant_files (src/app/code_gen_agent.py lines 153-176)

   words = lowercased alphanumeric-or-underscore runs of length > 2;
   score of a candidate = total number of non-overlapping occurrences
   of each word in the lowercased "path summary" text; candidates are
   stable-sorted by descending score; positive scorers up to max_count
   are returned, else the first two candidates.
   ------------------------------------------------------------------ -/

/-- A character of the regex class letters-digits-underscore. -/
def wordChar (c : Char) : Bool :=
  (97 ≤ c.toNat && c.toNat ≤ 122) || (65 ≤ c.toNat && c.toNat ≤ 90) ||
  (48 ≤ c.toNat && c.toNat ≤ 57) || c == '_'

/-- re.findall of maximal wordChar runs; cur is the current run in
reverse, or none when outside a run. -/
def findWordsAux : Option (List Char) → List Char → List Str
  | none, [] => []
  | some run, [] => [run.reverse]
  | cur, c :: rest =>
    if wordChar c then
      findWordsAux (some (c :: cur.getD [])) rest
    else
      match cur with
      | none => findWordsAux none rest
      | some run => run.reverse :: findWordsAux none rest

def pyFindallWords (s : Str) : List Str := findWordsAux none s

/-- The query tokens: lowercased words of length greater than two. -/
def tokensOf (prompt : Str) : List Str :=
  (pyFindallWords prompt).filterMap
    (fun w => if 2 < w.length then some (pyLower w) else none)

/-- str.count worker: non-overlapping left-to-right occurrence count of
pat (non-empty) in hay, with structural fuel of at least hay.length. -/
def countSubAux (pat : Str) : Str → Nat → Nat
  | _, 0 => 0
  | hay, fuel + 1 =>
    if strPrefix pat hay then
      match hay with
      | [] => 0
      | _ :: _ => 1 + countSubAux pat (hay.drop pat.length) fuel
    else
      match hay with
      | [] => 0
      | _ :: t => countSubAux pat t fuel

/-- str.count: the empty pattern occurs len+1 times; otherwise count
non-overlapping occurrences from the left. -/
def countSub (hay pat : Str) : Nat :=
  if pat.isEmpty then hay.length + 1 else countSubAux pat hay hay.length

/-- One candidate score: the sum over all query words of their
occurrence counts in the lowercased path-space-summary text. -/
def scoreOf (words : List Str) (path summ : Str) : Nat :=
  (words.map (fun w => countSub (pyLower (path ++ ' ' :: summ)) w)).sum

/-- Insert into a descending-sorted list, before the first element of
less-or-equal score (so earlier elements win ties: stability). -/
def insertByScore (x : Str × Nat) : List (Str × Nat) → List (Str × Nat)
  | [] => [x]
  | y :: ys => if y.2 ≤ x.2 then x :: y :: ys else y :: insertByScore x ys

/-- Stable sort by descending score.  The output of a stable sort is
unique, so this agrees with scored.sort by score with reverse order. -/
def sortByScore : List (Str × Nat) → List (Str × Nat)
  | [] => []
  | x :: xs => insertByScore x (sortByScore xs)

def relevant_files (prompt : Str) (summaries : List (Str × Str)) (max_count : Nat) : List Str :=
  let words := tokensOf prompt
  let scored := summaries.map (fun e => (e.1, scoreOf words e.1 e.2))
  let sorted := sortByScore scored
  let hits := ((sorted.filter (fun x => 0 < x.2)).map Prod.fst).take max_count
  if hits.isEmpty then (sorted.take 2).map Prod.fst else hits

theorem sortByScore_const (k : Nat) :
    ∀ (l : List (Str × Nat)), (∀ x ∈ l, x.2 = k) → sortByScore l = l := by
  intro l
  induction l with
  | nil => intro _; rfl
  | cons x xs ih =>
    intro h
    rw [sortByScore, ih (fun y hy => h y (List.mem_cons_of_mem _ hy))]
    cases xs with
    | nil => rfl
    | cons y ys =>
      rw [insertByScore]
      have hx : x.2 = k := h x (List.mem_cons_self _ _)
      have hy : y.2 = k := h y (List.mem_cons_of_mem _ (List.mem_cons_self _ _))
      rw [if_pos (by rw [hx, hy])]

theorem mem_insertByScore (x y : Str × Nat) :
    ∀ (l : List (Str × Nat)), y ∈ insertByScore x l → y = x ∨ y ∈ l := by
  intro l
  induction l with
  | nil =>
    intro h
    rcases List.mem_singleton.mp h with rfl
    exact Or.inl rfl
  | cons z zs ih =>
    intro h
    rw [insertByScore] at h
    by_cases hc : z.2 ≤ x.2
    · rw [if_pos hc] at h
      rcases List.mem_cons.mp h with h | h
      · exact Or.inl h
      · exact Or.inr h
    · rw [if_neg hc] at h
      rcases List.mem_cons.mp h with h | h
      · exact Or.inr (by rw [h]; exact List.mem_cons_self _ _)
      · rcases ih h with h | h
        · exact Or.inl h
        · exact Or.inr (List.mem_cons_of_mem _ h)

theorem mem_sortByScore (y : Str × Nat) :
    ∀ (l : List (Str × Nat)), y ∈ sortByScore l → y ∈ l := by
  intro l
  induction l with
  | nil => intro h; cases h
  | cons x xs ih =>
    intro h
    rw [sortByScore] at h
    rcases mem_insertByScore x y _ h with h | h
    · rw [h]; exact List.mem_cons_self _ _
    · exact List.mem_cons_of_mem _ (ih h)

theorem length_insertByScore (x : Str × Nat) :
    ∀ (l : List (Str × Nat)), (insertByScore x l).length = l.length + 1 := by
  intro l
  induction l with
  | nil => rfl
  | cons z zs ih =>
    rw [insertByScore]
    by_cases hc : z.2 ≤ x.2
    · rw [if_pos hc]
      rfl
    · rw [if_neg hc]
      simp [ih]

theorem length_sortByScore :
    ∀ (l : List (Str × Nat)), (sortByScore l).length = l.length := by
  intro l
  induction l with
  | nil => rfl
  | cons x xs ih =>
    rw [sortByScore, length_insertByScore, ih]
    rfl

/-- Every path returned by relevant_files is a key of the summaries
mapping. -/
theorem relevant_files_sub_keys (prompt : Str) (summaries : List (Str × Str)) (mc : Nat)
    (p : Str) (hp : p ∈ relevant_files prompt summaries mc) :
    p ∈ summaries.map Prod.fst := by
  simp only [relevant_files] at hp
  set scored := summaries.map
    (fun e => (e.1, scoreOf (tokensOf prompt) e.1 e.2)) with hscored
  have key : ∀ q ∈ sortByScore scored, q.1 ∈ summaries.map Prod.fst := by
    intro q hq
    have := mem_sortByScore q scored hq
    rw [hscored] at this
    rcases List.mem_map.mp this with ⟨e, he, heq⟩
    rw [← heq]
    exact List.mem_map.mpr ⟨e, he, rfl⟩
  by_cases hh : ((((sortByScore scored).filter (fun x => 0 < x.2)).map Prod.fst).take mc).isEmpty
  · rw [if_pos hh] at hp
    rcases List.mem_map.mp hp with ⟨q, hq, hqe⟩
    rw [← hqe]
    exact key q (List.mem_of_mem_take hq)
  · rw [if_neg hh] at hp
    have hp2 := List.mem_of_mem_take hp
    rcases List.mem_map.mp hp2 with ⟨q, hq, hqe⟩
    rw [← hqe]
    exact key q (List.mem_of_mem_filter hq)

/-- relevant_files never returns an empty list when at least one
candidate exists. -/
theorem relevant_files_ne_nil (prompt : Str) (summaries : List (Str × Str)) (mc : Nat)
    (h : summaries ≠ []) : relevant_files prompt summaries mc ≠ [] := by
  simp only [relevant_files]
  set scored := summaries.map
    (fun e => (e.1, scoreOf (tokensOf prompt) e.1 e.2)) with hscored
  have hlen : (sortByScore scored).length = summaries.length := by
    rw [length_sortByScore, hscored, List.length_map]
  by_cases hh : ((((sortByScore scored).filter (fun x => 0 < x.2)).map Prod.fst).take mc).isEmpty
  · rw [if_pos hh]
    intro hcon
    have : (sortByScore scored).take 2 = [] := by
      cases htk : (sortByScore scored).take 2 with
      | nil => rfl
      | cons a t => rw [htk] at hcon; simp at hcon
    have h2 : (sortByScore scored).length = 0 ∨ (2 : Nat) = 0 := by
      rcases List.take_eq_nil_iff.mp this with h2 | h2
      · right; exact h2
      · left; rw [h2]; rfl
    rcases h2 with h2 | h2
    · rw [hlen] at h2
      exact h (List.eq_nil_of_length_eq_zero h2)
    · cases h2
  · rw [if_neg hh]
    intro hcon
    rw [hcon] at hh
    exact hh rfl

/-- C7: when none of the query tokens occurs in any candidate text,
relevant_files returns exactly the first two candidates in original
order (one when only one exists, empty exactly when there are no
candidates), and is non-empty whenever a candidate exists. -/
theorem relevant_files_zero_overlap (prompt : Str) (summaries : List (Str × Str)) (mc : Nat)
    (h : ∀ e ∈ summaries, ∀ w ∈ tokensOf prompt,
      countSub (pyLower (e.1 ++ ' ' :: e.2)) w = 0) :
    relevant_files prompt summaries mc = (summaries.map Prod.fst).take 2 ∧
      (summaries ≠ [] → relevant_files prompt summaries mc ≠ []) := by
  constructor
  · simp only [relevant_files]
    have hscored : summaries.map (fun e => (e.1, scoreOf (tokensOf prompt) e.1 e.2)) =
        summaries.map (fun e => (e.1, (0 : Nat))) := by
      apply List.map_congr_left
      intro e he
      have : scoreOf (tokensOf prompt) e.1 e.2 = 0 := by
        rw [scoreOf]
        apply List.sum_eq_zero
        intro x hx
        rcases List.mem_map.mp hx with ⟨w, hw, hwe⟩
        rw [← hwe]
        exact h e he w hw
      rw [this]
    rw [hscored, sortByScore_const 0 _ (by intro x hx; rcases List.mem_map.mp hx with ⟨e, _, he⟩; rw [← he])]
    have hfil : (summaries.map (fun e => (e.1, (0 : Nat)))).filter (fun x => 0 < x.2) = [] := by
      rw [List.filter_eq_nil_iff]
      intro a ha
      rcases List.mem_map.mp ha with ⟨e, _, he⟩
      rw [← he]
      simp
    rw [hfil]
    simp only [List.map_nil, List.take_nil, List.isEmpty_nil, if_pos]
    rw [List.map_take, List.map_map]
    rfl
  · intro hne
    exact relevant_files_ne_nil prompt summaries mc hne

/-- Witness for C7 on a three-candidate mapping and a query with no
overlapping tokens. -/
theorem relevant_files_zero_overlap_witness :
    (∀ e ∈ [(("a.ts".toList), ("alpha file".toList)), (("b.ts".toList), ("beta file".toList)),
        (("c.ts".toList), ("gamma file".toList))],
      ∀ w ∈ tokensOf ("zzz qqq".toList),
        countSub (pyLower (e.1 ++ ' ' :: e.2)) w = 0) ∧
    relevant_files ("zzz qqq".toList)
        [(("a.ts".toList), ("alpha file".toList)), (("b.ts".toList), ("beta file".toList)),
          (("c.ts".toList), ("gamma file".toList))] 5 =
      [("a.ts".toList), ("b.ts".toList)] :=
  ⟨by decide,
    (relevant_files_zero_overlap ("zzz qqq".toList) _ 5 (by decide)).1.trans (by decide)⟩

/- ------------------------------------------------------------------
   Data model: the project snapshot (spec section 3, and the snapshot
   shape written by handle_create_project / handle_update_project).
   ------------------------------------------------------------------ -/

structure Snapshot where
  projectId : Str
  language : Str
  framework : Str
  globalSpec : Str
  files : List Str
  roles : List (Str × Str)
  summaries : List (Str × Str)
  lastRequirementKey : Option Str
  lastChangeSpec : Option Str

/-- The three fields read out of a parsed change-spec JSON document by
find_impacted_files_from_spec; a missing key is none.  A json.loads
failure, or a parse to a non-dict value, is the none outcome of the
surrounding Option (both leave impacted and new empty in the source). -/
structure ChangeSpecObj where
  impactedFiles : Option (List Str)
  files_to_update : Option (List Str)
  newFiles : Option (List Str)

structure ImpactInfo where
  impactedFiles : List Str
  newFiles : List Str

/-- spec_obj.get impactedFiles-or-default or spec_obj.get
files_to_update-or-default: the Python or returns the first truthy
operand, and a list is truthy exactly when it is non-empty. -/
def extractImpacted : Option ChangeSpecObj → List Str
  | none => []
  | some o =>
    if (o.impactedFiles.getD []).isEmpty then o.files_to_update.getD []
    else o.impactedFiles.getD []

def extractNew : Option ChangeSpecObj → List Str
  | none => []
  | some o => o.newFiles.getD []

/- find_impacted_files_from_spec (src/app/code_gen_agent.py lines
472-502).  json.loads on the change-spec text is modelled by the
jsonParse oracle parameter; everything after it is the source logic:
take impactedFiles (or the legacy files_to_update key), fall back to
relevant_files over the raw text when no impacted path was obtained,
then keep only paths already known to the project. -/
def find_impacted_files_from_spec (jsonParse : Str → Option ChangeSpecObj)
    (change_spec_text : Str) (snapshot : Snapshot) : ImpactInfo :=
  { impactedFiles :=
      (if (extractImpacted (jsonParse change_spec_text)).isEmpty then
        relevant_files change_spec_text snapshot.summaries 5
      else extractImpacted (jsonParse change_spec_text)).filter
        (fun p => p ∈ snapshot.files)
    newFiles := extractNew (jsonParse change_spec_text) }

/-- C1: for every change-spec text (that is, every possible parse
outcome) and every snapshot, the impacted paths returned by
find_impacted_files_from_spec all lie in the snapshot's known file
set, and the returned new files are exactly the ones declared under
the newFiles key, so an unknown impacted path is dropped and never
becomes a new file. -/
theorem impacted_subset_known (jsonParse : Str → Option ChangeSpecObj)
    (change_spec_text : Str) (snapshot : Snapshot) :
    (∀ p ∈ (find_impacted_files_from_spec jsonParse change_spec_text snapshot).impactedFiles,
      p ∈ snapshot.files) ∧
    (find_impacted_files_from_spec jsonParse change_spec_text snapshot).newFiles =
      extractNew (jsonParse change_spec_text) := by
  constructor
  · intro p hp
    rw [find_impacted_files_from_spec] at hp
    simp only at hp
    have := List.of_mem_filter hp
    simpa using this
  · rfl

/-- Witness data for C1 and C2: a one-file snapshot. -/
def snapA : Snapshot :=
  { projectId := "p1".toList
    language := "typescript".toList
    framework := "nestjs".toList
    globalSpec := [] 
    files := [("a.ts".toList)]
    roles := [(("a.ts".toList), ("controller".toList))]
    summaries := [(("a.ts".toList), ("alpha file".toList))]
    lastRequirementKey := none
    lastChangeSpec := none }

/-- A parse oracle that always yields a spec naming one known impacted
file and one declared new file. -/
def jsonParseA : Str → Option ChangeSpecObj :=
  fun _ => some
    { impactedFiles := some [("a.ts".toList), ("missing.ts".toList)]
      files_to_update := none
      newFiles := some [("c.ts".toList)] }

/-- Witness for C1: the known path is kept, the unknown one is
dropped, and newFiles is exactly the declared list. -/
theorem impacted_subset_known_witness :
    (("a.ts".toList) ∈ snapA.files ∧
      (find_impacted_files_from_spec jsonParseA [] snapA).newFiles =
        extractNew (jsonParseA [])) ∧
    (find_impacted_files_from_spec jsonParseA [] snapA).impactedFiles = [("a.ts".toList)] :=
  ⟨⟨(impacted_subset_known jsonParseA [] snapA).1 ("a.ts".toList) (by decide),
      (impacted_subset_known jsonParseA [] snapA).2⟩,
    by decide⟩

/-- A parse oracle producing only an unknown impacted path. -/
def jsonParseBogus : Str → Option ChangeSpecObj :=
  fun _ => some
    { impactedFiles := some [("bogus.ts".toList)]
      files_to_update := none
      newFiles := none }

/-- C2 counterexample: the snapshot has a non-empty known file set, yet
find_impacted_files_from_spec returns an empty impactedFiles list,
because the parsed spec yields impacted paths (so the RelevanceScorer
fallback is skipped) and they are all filtered out as unknown. -/
theorem impacted_nonempty_cex :
    snapA.files ≠ [] ∧
      (find_impacted_files_from_spec jsonParseBogus [] snapA).impactedFiles = [] := by
  constructor
  · decide
  · decide

/-- C2 (amended): whenever the parse outcome yields no impacted paths
(parse failure, non-dict result, or missing/empty impactedFiles and
files_to_update keys), the RelevanceScorer fallback is invoked, and if
additionally the snapshot's summaries mapping is non-empty and every
summary key is a known file (the invariant of every snapshot the
pipeline itself persists), the returned impactedFiles list is
non-empty. -/
theorem fallback_impacted_nonempty (jsonParse : Str → Option ChangeSpecObj)
    (change_spec_text : Str) (snapshot : Snapshot)
    (hparse : extractImpacted (jsonParse change_spec_text) = [])
    (hsum : snapshot.summaries ≠ [])
    (hkeys : ∀ e ∈ snapshot.summaries, e.1 ∈ snapshot.files) :
    (find_impacted_files_from_spec jsonParse change_spec_text snapshot).impactedFiles ≠ [] := by
  rw [find_impacted_files_from_spec]
  simp only [hparse, List.isEmpty_nil, if_pos]
  have hall : ∀ p ∈ relevant_files change_spec_text snapshot.summaries 5,
      (decide (p ∈ snapshot.files)) = true := by
    intro p hp
    have hkey := relevant_files_sub_keys change_spec_text snapshot.summaries 5 p hp
    rcases List.mem_map.mp hkey with ⟨e, he, hee⟩
    rw [← hee]
    exact decide_eq_true (hkeys e he)
  rw [List.filter_eq_self.mpr hall]
  exact relevant_files_ne_nil change_spec_text snapshot.summaries 5 hsum

/-- A parse oracle that always fails. -/
def jsonParseFail : Str → Option ChangeSpecObj := fun _ => none

/-- Witness for the amended C2 on the one-file snapshot with a failing
parse: the fallback produces a non-empty impacted list. -/
theorem fallback_impacted_nonempty_witness :
    (find_impacted_files_from_spec jsonParseFail ("zzz".toList) snapA).impactedFiles ≠ [] :=
  fallback_impacted_nonempty jsonParseFail ("zzz".toList) snapA
    (by decide) (by decide) (by decide)

/- ------------------------------------------------------------------
   plan_files_from_global_spec (src/app/code_gen_agent.py lines
   259-304).  The model call plus json.loads plus the list assertion
   is modelled by an Option parameter: some plan when the response
   parsed to a JSON list, none when json.loads raised or the value was
   not a list.  The fallback branch is the source's hard-coded
   skeleton for typescript/nestjs and the empty plan otherwise.
   ------------------------------------------------------------------ -/

structure FileMeta where
  path : Str
  role : Str

def plan_files_from_global_spec (planParsed : Option (List FileMeta))
    (language framework : Str) : List FileMeta :=
  match planParsed with
  | some plan => plan
  | none =>
    if language = ("typescript".toList) ∧ framework = ("nestjs".toList) then
      [{ path := ("src/main.ts".toList), role := ("bootstrap module".toList) },
       { path := ("src/app.module.ts".toList), role := ("root module".toList) },
       { path := ("src/app.controller.ts".toList), role := ("controller".toList) },
       { path := ("src/app.service.ts".toList), role := ("service".toList) }]
    else []

/-- C5: when the planning response fails to parse as a JSON list, the
plan is exactly the four-file nestjs skeleton for the
typescript/nestjs stack, in that order with those roles, and the empty
plan for every other language/framework pair. -/
theorem plan_parse_failure_fallback (language framework : Str) :
    plan_files_from_global_spec none language framework =
      (if language = ("typescript".toList) ∧ framework = ("nestjs".toList) then
        [{ path := ("src/main.ts".toList), role := ("bootstrap module".toList) },
         { path := ("src/app.module.ts".toList), role := ("root module".toList) },
         { path := ("src/app.controller.ts".toList), role := ("controller".toList) },
         { path := ("src/app.service.ts".toList), role := ("service".toList) }]
      else []) := rfl

/- ------------------------------------------------------------------
   The oracle bundling every external capability used by the flows:
   one field per call_model site (a pure function of the data that the
   source interpolates into the prompt) and one field per json.loads
   site.  The object store holding code files is a separate parameter.
   ------------------------------------------------------------------ -/

structure Oracle where
  summarize_requirement_chunk : Str → Nat → Str
  build_global_spec_from_chunks : List Str → Str
  plan_parse : Str → Str → Str → Option (List FileMeta)
  generate_file_code : Str → FileMeta → Str
  summarize_file_code : Str → Str → Str → Str
  build_change_spec : Str → Snapshot → Str
  change_spec_parse : Str → Option ChangeSpecObj
  regenerate_file_from_change : Str → Str → Str → Str → Str → Str → Str
  generate_new_file_from_change : Str → Str → Str → Str → Str

/- ------------------------------------------------------------------
   handle_create_project (src/app/code_gen_agent.py lines 357-425)
   ------------------------------------------------------------------ -/

structure CreateResult where
  projectId : Str
  fileCount : Nat
  requirementKey : Str
  response : Str
  snapshot : Snapshot
  contentWrites : List (Str × Str)

/-- One iteration of the per-file generation loop: generate the code,
record it with the file role and a derived summary. -/
def createStep (oracle : Oracle) (global_spec : Str)
    (st : List (Str × Str) × List (Str × Str) × List (Str × Str)) (meta : FileMeta) :
    List (Str × Str) × List (Str × Str) × List (Str × Str) :=
  (dictSet st.1 meta.path (oracle.generate_file_code global_spec meta),
   dictSet st.2.1 meta.path meta.role,
   dictSet st.2.2 meta.path
     (oracle.summarize_file_code meta.path meta.role
       (oracle.generate_file_code global_spec meta)))

/-- Steps 2 to 4 of the create flow: chunk the requirement with the
source default of 6000 characters, summarize each chunk with its
index, and merge the summaries into the global spec. -/
def createGlobalSpec (oracle : Oracle) (requirement : Str) : Str :=
  oracle.build_global_spec_from_chunks
    ((chunk_requirement requirement 6000).enum.map
      (fun ic => oracle.summarize_requirement_chunk ic.2 ic.1))

/-- Step 5 of the create flow: the per-file plan. -/
def createFilePlan (oracle : Oracle) (language framework requirement : Str) : List FileMeta :=
  plan_files_from_global_spec
    (oracle.plan_parse (createGlobalSpec oracle requirement) language framework)
    language framework

/-- Step 6 of the create flow: the generated files, roles and
summaries dicts after the per-file loop. -/
def createState (oracle : Oracle) (language framework requirement : Str) :
    List (Str × Str) × List (Str × Str) × List (Str × Str) :=
  (createFilePlan oracle language framework requirement).foldl
    (createStep oracle (createGlobalSpec oracle requirement)) ([], [], [])

def handle_create_project (oracle : Oracle) (req_key : Str)
    (project_id language framework requirement : Str) : CreateResult :=
  { projectId := project_id
    fileCount := (createState oracle language framework requirement).1.length
    requirementKey := req_key
    response := formatFileBlocks (createState oracle language framework requirement).1
    snapshot :=
      { projectId := project_id
        language := language
        framework := framework
        globalSpec := createGlobalSpec oracle requirement
        files := (createState oracle language framework requirement).1.map Prod.fst
        roles := (createState oracle language framework requirement).2.1
        summaries := (createState oracle language framework requirement).2.2
        lastRequirementKey := some req_key
        lastChangeSpec := none }
    contentWrites := (createState oracle language framework requirement).1 }

/- ------------------------------------------------------------------
   handle_update_project (src/app/code_gen_agent.py lines 578-682)
   ------------------------------------------------------------------ -/

structure UpdateSuccess where
  projectId : Str
  updatedFiles : List Str
  createdFiles : List Str
  response : Str
  impactInfo : ImpactInfo
  snapshot : Snapshot
  contentWrites : List (Str × Str)

inductive UpdateResult where
  | noFiles (projectId : Str)
  | ok (r : UpdateSuccess)

/-- One iteration of the impacted-file regeneration loop (step 3):
skip silently when the stored file is missing, otherwise regenerate
and refresh the summary; the state is the updated-files dict and the
summaries dict. -/
def regenStep (oracle : Oracle) (store : Str → Str → Option Str)
    (project_id change_spec_text global_spec : Str) (roles : List (Str × Str))
    (st : List (Str × Str) × List (Str × Str)) (path : Str) :
    List (Str × Str) × List (Str × Str) :=
  match store project_id path with
  | none => st
  | some old_code =>
    (dictSet st.1 path
      (oracle.regenerate_file_from_change project_id path old_code
        change_spec_text global_spec (dget roles path)),
     dictSet st.2 path
      (oracle.summarize_file_code path (dget roles path)
        (oracle.regenerate_file_from_change project_id path old_code
          change_spec_text global_spec (dget roles path))))

structure NewFilesState where
  files : List Str
  roles : List (Str × Str)
  summaries : List (Str × Str)
  created : List (Str × Str)

def newFileRole : Str := "generated for change request".toList

/-- One iteration of the new-file loop (step 4): a path already in the
file list is skipped, otherwise the file is generated, given the fixed
role, summarized, and appended to the file list. -/
def newFileStep (oracle : Oracle) (project_id change_spec_text global_spec : Str)
    (st : NewFilesState) (path : Str) : NewFilesState :=
  if path ∈ st.files then st
  else
    { files := st.files ++ [path]
      roles := dictSet st.roles path newFileRole
      summaries := dictSet st.summaries path
        (oracle.summarize_file_code path newFileRole
          (oracle.generate_new_file_from_change project_id path change_spec_text global_spec))
      created := dictSet st.created path
        (oracle.generate_new_file_from_change project_id path change_spec_text global_spec) }

/-- The change-spec text of one update run (step 1). -/
def updateChangeSpec (oracle : Oracle) (change_request : Str) (snapshot : Snapshot) : Str :=
  oracle.build_change_spec change_request snapshot

/-- The resolved impact of one update run (step 2). -/
def updateImpact (oracle : Oracle) (change_request : Str) (snapshot : Snapshot) : ImpactInfo :=
  find_impacted_files_from_spec oracle.change_spec_parse
    (updateChangeSpec oracle change_request snapshot) snapshot

/-- The state after the impacted-file regeneration loop (step 3):
updated-files dict and summaries dict, starting from the snapshot's
summaries. -/
def updateRegenState (oracle : Oracle) (store : Str → Str → Option Str)
    (project_id change_request : Str) (snapshot : Snapshot) :
    List (Str × Str) × List (Str × Str) :=
  (updateImpact oracle change_request snapshot).impactedFiles.foldl
    (regenStep oracle store project_id (updateChangeSpec oracle change_request snapshot)
      snapshot.globalSpec snapshot.roles)
    ([], snapshot.summaries)

/-- The state after the new-file loop (step 4). -/
def updateNewState (oracle : Oracle) (store : Str → Str → Option Str)
    (project_id change_request : Str) (snapshot : Snapshot) : NewFilesState :=
  (updateImpact oracle change_request snapshot).newFiles.foldl
    (newFileStep oracle project_id (updateChangeSpec oracle change_request snapshot)
      snapshot.globalSpec)
    { files := snapshot.files
      roles := snapshot.roles
      summaries := (updateRegenState oracle store project_id change_request snapshot).2
      created := [] }

def handle_update_project (oracle : Oracle) (store : Str → Str → Option Str)
    (project_id language change_request : Str) (snapshot : Snapshot) : UpdateResult :=
  if snapshot.files.isEmpty then .noFiles project_id
  else
    .ok
      { projectId := project_id
        updatedFiles :=
          (updateRegenState oracle store project_id change_request snapshot).1.map Prod.fst
        createdFiles :=
          (updateNewState oracle store project_id change_request snapshot).created.map Prod.fst
        response :=
          (if (dictMerge (updateRegenState oracle store project_id change_request snapshot).1
              (updateNewState oracle store project_id change_request snapshot).created).isEmpty
           then []
           else formatFileBlocks
             (dictMerge (updateRegenState oracle store project_id change_request snapshot).1
               (updateNewState oracle store project_id change_request snapshot).created))
        impactInfo := updateImpact oracle change_request snapshot
        snapshot :=
          { projectId := project_id
            language := language
            framework := snapshot.framework
            globalSpec := snapshot.globalSpec
            files := (updateNewState oracle store project_id change_request snapshot).files
            roles := (updateNewState oracle store project_id change_request snapshot).roles
            summaries := (updateNewState oracle store project_id change_request snapshot).summaries
            lastRequirementKey := none
            lastChangeSpec := some (updateChangeSpec oracle change_request snapshot) }
        contentWrites :=
          (updateRegenState oracle store project_id change_request snapshot).1 ++
            (updateNewState oracle store project_id change_request snapshot).created }

/- ------------------------------------------------------------------
   invoke (src/app/code_gen_agent.py lines 689-719)
   ------------------------------------------------------------------ -/

structure Payload where
  projectId : Option Str
  language : Option Str
  framework : Option Str
  prompt : Option Str
  requirement : Option Str
  changeRequest : Option Str

/-- The Python pattern value-or-default: a missing or falsy (empty)
string is replaced by the default. -/
def strOr (o : Option Str) (dflt : Str) : Str :=
  match o with
  | none => dflt
  | some s => if s.isEmpty then dflt else s

/-- The Python or on two optional strings: the first operand when it
is present and non-empty, otherwise the second. -/
def firstTruthy (a b : Option Str) : Option Str :=
  match a with
  | none => b
  | some s => if s.isEmpty then b else some s

def effectiveProjectId (p : Payload) : Str := p.projectId.getD ("default-project".toList)

def effectiveLanguage (p : Payload) : Str := pyLower (strOr p.language ("python".toList))

def effectiveFramework (p : Payload) : Str := strOr p.framework ("fastapi".toList)

/-- The requirement text used by invoke: the first non-empty of
prompt, requirement and changeRequest; none when the chain ends falsy
(which triggers the missing-requirement error). -/
def requirementOf (p : Payload) : Option Str :=
  match firstTruthy (firstTruthy p.prompt p.requirement) p.changeRequest with
  | none => none
  | some s => if s.isEmpty then none else some s

inductive InvokeResult where
  | error (msg : Str)
  | created (r : CreateResult)
  | updated (r : UpdateResult)

def InvokeResult.isCreated : InvokeResult → Bool
  | .created _ => true
  | _ => false

def InvokeResult.isUpdated : InvokeResult → Bool
  | .updated _ => true
  | _ => false

def InvokeResult.isError : InvokeResult → Bool
  | .error _ => true
  | _ => false

/-- The snapshot that the invocation persists, when one is persisted. -/
def InvokeResult.persistedSnapshot : InvokeResult → Option Snapshot
  | .created r => some r.snapshot
  | .updated (.ok r) => some r.snapshot
  | _ => none

def missingMsg : Str := "Missing prompt, requirement or changeRequest in payload".toList

def invoke (oracle : Oracle) (store : Str → Str → Option Str)
    (loadSnap : Str → Option Snapshot) (req_key : Str) (payload : Payload) : InvokeResult :=
  match requirementOf payload with
  | none => .error missingMsg
  | some requirement =>
    match loadSnap (effectiveProjectId payload) with
    | none =>
      .created (handle_create_project oracle req_key (effectiveProjectId payload)
        (effectiveLanguage payload) (effectiveFramework payload) requirement)
    | some snap =>
      if snap.files.isEmpty then
        .created (handle_create_project oracle req_key (effectiveProjectId payload)
          (effectiveLanguage payload) (effectiveFramework payload) requirement)
      else
        .updated (handle_update_project oracle store (effectiveProjectId payload)
          (effectiveLanguage payload) requirement snap)

/-- Does a loaded snapshot count as absent-or-empty for the branch at
invoke lines 714-719 (empty dict, or empty known-file list)? -/
def snapshotAbsentOrEmpty : Option Snapshot → Bool
  | none => true
  | some s => s.files.isEmpty

/-- C3: for every invocation carrying a non-empty requirement text,
invoke runs the CREATE flow exactly when the loaded snapshot is absent
or its known-file list is empty, runs the UPDATE flow otherwise, and
never both or neither. -/
theorem invoke_branches (oracle : Oracle) (store : Str → Str → Option Str)
    (loadSnap : Str → Option Snapshot) (req_key : Str) (payload : Payload) (r : Str)
    (h : requirementOf payload = some r) :
    (invoke oracle store loadSnap req_key payload).isCreated =
        snapshotAbsentOrEmpty (loadSnap (effectiveProjectId payload)) ∧
      (invoke oracle store loadSnap req_key payload).isUpdated =
        !(snapshotAbsentOrEmpty (loadSnap (effectiveProjectId payload))) ∧
      (invoke oracle store loadSnap req_key payload).isError = false := by
  rw [invoke, h]
  cases hl : loadSnap (effectiveProjectId payload) with
  | none => exact ⟨rfl, rfl, rfl⟩
  | some snap =>
    by_cases hf : snap.files.isEmpty
    · simp [hf, snapshotAbsentOrEmpty, InvokeResult.isCreated, InvokeResult.isUpdated,
        InvokeResult.isError]
    · simp [hf, snapshotAbsentOrEmpty, InvokeResult.isCreated, InvokeResult.isUpdated,
        InvokeResult.isError]

/-- A concrete oracle whose every response is empty and whose parses
all fail; used only to instantiate witnesses. -/
def trivOracle : Oracle :=
  { summarize_requirement_chunk := fun _ _ => []
    build_global_spec_from_chunks := fun _ => []
    plan_parse := fun _ _ _ => none
    generate_file_code := fun _ _ => []
    summarize_file_code := fun _ _ _ => []
    build_change_spec := fun _ _ => []
    change_spec_parse := fun _ => none
    regenerate_file_from_change := fun _ _ _ _ _ _ => []
    generate_new_file_from_change := fun _ _ _ _ => [] }

def emptyStore : Str → Str → Option Str := fun _ _ => none

def payloadCreate : Payload :=
  { projectId := none
    language := none
    framework := none
    prompt := some ("make an app".toList)
    requirement := none
    changeRequest := none }

/-- Witness for C3: with no stored snapshot and a non-empty prompt,
the invocation runs the create flow and reports no error. -/
theorem invoke_branches_witness :
    requirementOf payloadCreate = some ("make an app".toList) ∧
      (invoke trivOracle emptyStore (fun _ => none) [] payloadCreate).isCreated = true ∧
      (invoke trivOracle emptyStore (fun _ => none) [] payloadCreate).isError = false :=
  ⟨by decide,
    ((invoke_branches trivOracle emptyStore (fun _ => none) [] payloadCreate
      ("make an app".toList) (by decide)).1).trans (by decide),
    (invoke_branches trivOracle emptyStore (fun _ => none) [] payloadCreate
      ("make an app".toList) (by decide)).2.2⟩

/-- C9: when invoke runs the update flow, the snapshot it persists
copies its framework from the loaded snapshot, ignoring the framework
supplied in the payload, while its language comes fresh from the
payload (lowercased, defaulting to python). -/
theorem update_keeps_framework_takes_language (oracle : Oracle)
    (store : Str → Str → Option Str) (loadSnap : Str → Option Snapshot)
    (req_key : Str) (payload : Payload) (s : Snapshot) (r : Str)
    (hl : loadSnap (effectiveProjectId payload) = some s)
    (hf : s.files.isEmpty = false)
    (hr : requirementOf payload = some r) :
    ((invoke oracle store loadSnap req_key payload).persistedSnapshot.map Snapshot.framework =
      some s.framework) ∧
    ((invoke oracle store loadSnap req_key payload).persistedSnapshot.map Snapshot.language =
      some (effectiveLanguage payload)) := by
  rw [invoke, hr, hl]
  simp only [hf, Bool.false_eq_true, if_false]
  rw [handle_update_project]
  simp only [hf, Bool.false_eq_true, if_false]
  exact ⟨rfl, rfl⟩

/-- A stored snapshot of a two-file nestjs project, for witnesses. -/
def snapB : Snapshot :=
  { projectId := "p2".toList
    language := "typescript".toList
    framework := "nestjs".toList
    globalSpec := "spec".toList
    files := [("a.ts".toList), ("b.ts".toList)]
    roles := [(("a.ts".toList), ("controller".toList)), (("b.ts".toList), ("service".toList))]
    summaries := [(("a.ts".toList), ("alpha".toList)), (("b.ts".toList), ("beta".toList))]
    lastRequirementKey := none
    lastChangeSpec := none }

def payloadUpdate : Payload :=
  { projectId := some ("p2".toList)
    language := some ("TypeScript".toList)
    framework := some ("django".toList)
    prompt := some ("change it".toList)
    requirement := none
    changeRequest := none }

/-- Witness for C9: with payload framework django, the persisted
snapshot still records the loaded framework nestjs, and records the
lowercased payload language. -/
theorem update_keeps_framework_takes_language_witness :
    ((invoke trivOracle emptyStore (fun _ => some snapB) [] payloadUpdate).persistedSnapshot.map
        Snapshot.framework = some ("nestjs".toList)) ∧
    ((invoke trivOracle emptyStore (fun _ => some snapB) [] payloadUpdate).persistedSnapshot.map
        Snapshot.language = some ("typescript".toList)) :=
  ⟨((update_keeps_framework_takes_language trivOracle emptyStore (fun _ => some snapB) []
      payloadUpdate snapB ("change it".toList) rfl rfl (by decide)).1).trans
      (by decide),
    ((update_keeps_framework_takes_language trivOracle emptyStore (fun _ => some snapB) []
      payloadUpdate snapB ("change it".toList) rfl rfl (by decide)).2).trans
      (by decide)⟩

/-- A payload field is absent or carries the empty string. -/
def missingOrEmpty (o : Option Str) : Prop := o = none ∨ o = some []

/-- The Python falsiness of an optional string. -/
def optFalsy : Option Str → Bool
  | none => true
  | some s => s.isEmpty

theorem optFalsy_firstTruthy (a b : Option Str) :
    optFalsy (firstTruthy a b) = (optFalsy a && optFalsy b) := by
  cases a with
  | none => rfl
  | some s =>
    rw [firstTruthy]
    by_cases hs : s.isEmpty
    · rw [if_pos hs]
      show optFalsy b = (s.isEmpty && optFalsy b)
      rw [hs, Bool.true_and]
    · rw [if_neg hs]
      show s.isEmpty = (s.isEmpty && optFalsy b)
      have : s.isEmpty = false := by
        cases he : s.isEmpty with
        | true => exact absurd he hs
        | false => rfl
      rw [this, Bool.false_and]

theorem missingOrEmpty_iff_optFalsy (o : Option Str) :
    missingOrEmpty o ↔ optFalsy o = true := by
  cases o with
  | none => simp [missingOrEmpty, optFalsy]
  | some s =>
    simp only [missingOrEmpty, optFalsy]
    constructor
    · intro h
      rcases h with h | h
      · cases h
      · injection h with h2
        rw [h2]
        rfl
    · intro h
      right
      have : s = [] := List.isEmpty_iff.mp h
      rw [this]

theorem requirementOf_eq_none_iff (p : Payload) :
    requirementOf p = none ↔
      (missingOrEmpty p.prompt ∧ missingOrEmpty p.requirement ∧
        missingOrEmpty p.changeRequest) := by
  have hchain : requirementOf p = none ↔
      optFalsy (firstTruthy (firstTruthy p.prompt p.requirement) p.changeRequest) = true := by
    rw [requirementOf]
    cases hc : firstTruthy (firstTruthy p.prompt p.requirement) p.changeRequest with
    | none => simp [optFalsy]
    | some s =>
      simp only [optFalsy]
      by_cases hs : s.isEmpty
      · simp [hs]
      · simp [hs]
  rw [hchain, optFalsy_firstTruthy, optFalsy_firstTruthy,
    missingOrEmpty_iff_optFalsy, missingOrEmpty_iff_optFalsy, missingOrEmpty_iff_optFalsy]
  simp [Bool.and_eq_true, and_assoc]

/-- C10: invoke substitutes defaults for absent or empty identity
fields (projectId default-project when missing, language python when
missing or empty and lowercased otherwise, framework fastapi when
missing or empty), and returns the missing-requirement error exactly
when prompt, requirement and changeRequest are all absent or empty. -/
theorem invoke_defaults_and_error (oracle : Oracle) (store : Str → Str → Option Str)
    (loadSnap : Str → Option Snapshot) (req_key : Str) (payload : Payload) :
    (payload.projectId = none → effectiveProjectId payload = ("default-project".toList)) ∧
    (missingOrEmpty payload.language → effectiveLanguage payload = ("python".toList)) ∧
    (∀ s, payload.language = some s → s ≠ [] → effectiveLanguage payload = pyLower s) ∧
    (missingOrEmpty payload.framework → effectiveFramework payload = ("fastapi".toList)) ∧
    ((invoke oracle store loadSnap req_key payload).isError = true ↔
      (missingOrEmpty payload.prompt ∧ missingOrEmpty payload.requirement ∧
        missingOrEmpty payload.changeRequest)) := by
  refine ⟨?_, ?_, ?_, ?_, ?_⟩
  · intro h
    rw [effectiveProjectId, h]
    rfl
  · intro h
    rcases h with h | h
    · rw [effectiveLanguage, h]
      decide
    · rw [effectiveLanguage, h]
      decide
  · intro s hs hne
    rw [effectiveLanguage, hs]
    have hemp : s.isEmpty = false := by
      cases s with
      | nil => exact absurd rfl hne
      | cons a t => rfl
    rw [strOr]
    rw [hemp]
    simp
  · intro h
    rcases h with h | h
    · rw [effectiveFramework, h]
      rfl
    · rw [effectiveFramework, h]
      rfl
  · rw [← requirementOf_eq_none_iff]
    cases hreq : requirementOf payload with
    | none => simp [invoke, hreq, InvokeResult.isError]
    | some r =>
      rw [invoke, hreq]
      simp only [hreq]
      cases hl : loadSnap (effectiveProjectId payload) with
      | none => simp [InvokeResult.isError]
      | some snap =>
        by_cases hf : snap.files.isEmpty
        · simp [hf, InvokeResult.isError]
        · simp [hf, InvokeResult.isError]

def payloadEmpty : Payload :=
  { projectId := none
    language := none
    framework := none
    prompt := none
    requirement := none
    changeRequest := none }

/-- Witness for C10 on the all-missing payload: every default is
substituted and the invocation reports the missing-requirement
error. -/
theorem invoke_defaults_and_error_witness :
    effectiveProjectId payloadEmpty = ("default-project".toList) ∧
    effectiveLanguage payloadEmpty = ("python".toList) ∧
    effectiveFramework payloadEmpty = ("fastapi".toList) ∧
    (invoke trivOracle emptyStore (fun _ => none) [] payloadEmpty).isError = true :=
  ⟨(invoke_defaults_and_error trivOracle emptyStore (fun _ => none) [] payloadEmpty).1 rfl,
    (invoke_defaults_and_error trivOracle emptyStore (fun _ => none) [] payloadEmpty).2.1
      (Or.inl rfl),
    (invoke_defaults_and_error trivOracle emptyStore (fun _ => none) [] payloadEmpty).2.2.2.1
      (Or.inl rfl),
    ((invoke_defaults_and_error trivOracle emptyStore (fun _ => none) [] payloadEmpty).2.2.2.2).mpr
      ⟨Or.inl rfl, Or.inl rfl, Or.inl rfl⟩⟩

theorem dlookup_map_set_ne (d : List (Str × Str)) (k q : Str) (v : Str) (h : k ≠ q) :
    dlookup (d.map (fun e => if e.1 = k then (k, v) else e)) q = dlookup d q := by
  induction d with
  | nil => rfl
  | cons e t ih =>
    obtain ⟨a, b⟩ := e
    simp only [List.map_cons]
    by_cases he : a = k
    · simp only [he, if_pos rfl]
      rw [dlookup, dlookup, if_neg h, if_neg (by rw [he] at *; exact h)]
      exact ih
    · have : ((a, b).1 = k) = False := by simp [he]
      simp only [this, if_false]
      rw [dlookup, dlookup]
      by_cases heq : a = q
      · rw [if_pos heq, if_pos heq]
      · rw [if_neg heq, if_neg heq]
        exact ih

theorem dlookup_append_one_ne (d : List (Str × Str)) (k q : Str) (v : Str) (h : k ≠ q) :
    dlookup (d ++ [(k, v)]) q = dlookup d q := by
  induction d with
  | nil =>
    show (if k = q then some v else dlookup [] q) = dlookup [] q
    rw [if_neg h]
  | cons e t ih =>
    obtain ⟨a, b⟩ := e
    rw [List.cons_append, dlookup, dlookup]
    by_cases heq : a = q
    · rw [if_pos heq, if_pos heq]
    · rw [if_neg heq, if_neg heq]
      exact ih

theorem dlookup_dictSet_ne (d : List (Str × Str)) (k q : Str) (v : Str) (h : k ≠ q) :
    dlookup (dictSet d k v) q = dlookup d q := by
  rw [dictSet]
  by_cases hany : d.any (fun e => e.1 = k) = true
  · rw [if_pos hany]
    exact dlookup_map_set_ne d k q v h
  · rw [if_neg hany]
    exact dlookup_append_one_ne d k q v h

theorem not_mem_keys_dictSet (d : List (Str × Str)) (k q : Str) (v : Str)
    (hne : q ≠ k) (h : q ∉ d.map Prod.fst) : q ∉ (dictSet d k v).map Prod.fst := by
  rw [dictSet]
  by_cases hany : d.any (fun e => e.1 = k) = true
  · rw [if_pos hany]
    intro hmem
    rw [List.map_map] at hmem
    rcases List.mem_map.mp hmem with ⟨e, he, hee⟩
    simp only [Function.comp_apply] at hee
    by_cases hek : e.1 = k
    · rw [if_pos hek] at hee
      exact hne hee.symm
    · rw [if_neg hek] at hee
      exact h (List.mem_map.mpr ⟨e, he, hee⟩)
  · rw [if_neg hany]
    rw [List.map_append]
    intro hmem
    rcases List.mem_append.mp hmem with hm | hm
    · exact h hm
    · have : q = k := by simpa using hm
      exact hne this

theorem regenFold_preserve (oracle : Oracle) (store : Str → Str → Option Str)
    (project_id cst gs : Str) (roles : List (Str × Str)) (q : Str) :
    ∀ (paths : List Str) (st : List (Str × Str) × List (Str × Str)),
      q ∉ paths →
      ((q ∉ st.1.map Prod.fst →
        q ∉ (paths.foldl (regenStep oracle store project_id cst gs roles) st).1.map Prod.fst) ∧
       dlookup (paths.foldl (regenStep oracle store project_id cst gs roles) st).2 q =
        dlookup st.2 q) := by
  intro paths
  induction paths with
  | nil => exact fun st _ => ⟨fun h2 => h2, rfl⟩
  | cons path rest ih =>
    intro st h
    have hsplit : ¬(q = path ∨ q ∈ rest) := by simpa [List.mem_cons] using h
    have hqp : q ≠ path := fun he => hsplit (Or.inl he)
    have hqr : q ∉ rest := fun he => hsplit (Or.inr he)
    rw [List.foldl_cons]
    cases hst : store project_id path with
    | none =>
      have hstep : regenStep oracle store project_id cst gs roles st path = st := by
        rw [regenStep, hst]
      rw [hstep]
      exact ih st hqr
    | some old =>
      have hstep : regenStep oracle store project_id cst gs roles st path =
          (dictSet st.1 path
            (oracle.regenerate_file_from_change project_id path old cst gs (dget roles path)),
           dictSet st.2 path
            (oracle.summarize_file_code path (dget roles path)
              (oracle.regenerate_file_from_change project_id path old cst gs
                (dget roles path)))) := by
        rw [regenStep, hst]
      rw [hstep]
      constructor
      · intro h2
        exact (ih _ hqr).1 (not_mem_keys_dictSet _ _ _ _ hqp h2)
      · rw [(ih _ hqr).2]
        exact dlookup_dictSet_ne _ _ _ _ (Ne.symm hqp)

theorem newFold_preserve (oracle : Oracle) (project_id cst gs : Str) (q : Str) :
    ∀ (paths : List Str) (st : NewFilesState),
      q ∉ paths →
      (dlookup (paths.foldl (newFileStep oracle project_id cst gs) st).roles q =
        dlookup st.roles q ∧
       dlookup (paths.foldl (newFileStep oracle project_id cst gs) st).summaries q =
        dlookup st.summaries q ∧
       (q ∉ st.created.map Prod.fst →
        q ∉ (paths.foldl (newFileStep oracle project_id cst gs) st).created.map Prod.fst)) := by
  intro paths
  induction paths with
  | nil => exact fun st _ => ⟨rfl, rfl, fun h2 => h2⟩
  | cons path rest ih =>
    intro st h
    have hsplit : ¬(q = path ∨ q ∈ rest) := by simpa [List.mem_cons] using h
    have hqp : q ≠ path := fun he => hsplit (Or.inl he)
    have hqr : q ∉ rest := fun he => hsplit (Or.inr he)
    rw [List.foldl_cons]
    by_cases hmem : path ∈ st.files
    · have hstep : newFileStep oracle project_id cst gs st path = st := by
        rw [newFileStep, if_pos hmem]
      rw [hstep]
      exact ih st hqr
    · have hstep : newFileStep oracle project_id cst gs st path =
          { files := st.files ++ [path]
            roles := dictSet st.roles path newFileRole
            summaries := dictSet st.summaries path
              (oracle.summarize_file_code path newFileRole
                (oracle.generate_new_file_from_change project_id path cst gs))
            created := dictSet st.created path
              (oracle.generate_new_file_from_change project_id path cst gs) } := by
        rw [newFileStep, if_neg hmem]
      rw [hstep]
      refine ⟨?_, ?_, ?_⟩
      · rw [(ih _ hqr).1]
        exact dlookup_dictSet_ne _ _ _ _ (Ne.symm hqp)
      · rw [(ih _ hqr).2.1]
        exact dlookup_dictSet_ne _ _ _ _ (Ne.symm hqp)
      · intro h2
        exact (ih _ hqr).2.2 (not_mem_keys_dictSet _ _ _ _ hqp h2)

def UpdateResult.writesOf : UpdateResult → List (Str × Str)
  | .noFiles _ => []
  | .ok r => r.contentWrites

def UpdateResult.rolesOf : UpdateResult → List (Str × Str)
  | .noFiles _ => []
  | .ok r => r.snapshot.roles

def UpdateResult.summariesOf : UpdateResult → List (Str × Str)
  | .noFiles _ => []
  | .ok r => r.snapshot.summaries

/-- C8: in an update flow, a known file that is neither impacted nor
among the declared new files is untouched: its content is not among
the persisted writes, and its role and summary entries in the
persisted snapshot equal those of the loaded snapshot. -/
theorem update_untouched_file (oracle : Oracle) (store : Str → Str → Option Str)
    (project_id language change_request : Str) (snapshot : Snapshot) (q : Str)
    (hq : q ∈ snapshot.files)
    (h1 : q ∉ (updateImpact oracle change_request snapshot).impactedFiles)
    (h2 : q ∉ (updateImpact oracle change_request snapshot).newFiles) :
    (q ∉ ((handle_update_project oracle store project_id language change_request
        snapshot).writesOf.map Prod.fst)) ∧
    dlookup (handle_update_project oracle store project_id language change_request
        snapshot).rolesOf q = dlookup snapshot.roles q ∧
    dlookup (handle_update_project oracle store project_id language change_request
        snapshot).summariesOf q = dlookup snapshot.summaries q := by
  have hfe : snapshot.files.isEmpty = false := by
    cases hs : snapshot.files with
    | nil => rw [hs] at hq; cases hq
    | cons a t => rfl
  rw [handle_update_project, hfe]
  simp only [Bool.false_eq_true, if_false, UpdateResult.writesOf, UpdateResult.rolesOf,
    UpdateResult.summariesOf]
  have hregen := regenFold_preserve oracle store project_id
    (updateChangeSpec oracle change_request snapshot) snapshot.globalSpec snapshot.roles q
    (updateImpact oracle change_request snapshot).impactedFiles
    ([], snapshot.summaries) h1
  have hnew := newFold_preserve oracle project_id
    (updateChangeSpec oracle change_request snapshot) snapshot.globalSpec q
    (updateImpact oracle change_request snapshot).newFiles
    { files := snapshot.files
      roles := snapshot.roles
      summaries := (updateRegenState oracle store project_id change_request snapshot).2
      created := [] } h2
  have hrg1 : q ∉ (updateRegenState oracle store project_id change_request
      snapshot).1.map Prod.fst := by
    rw [updateRegenState]
    exact hregen.1 (by intro hx; cases hx)
  have hrg2 : dlookup (updateRegenState oracle store project_id change_request snapshot).2 q =
      dlookup snapshot.summaries q := by
    rw [updateRegenState]
    exact hregen.2
  have hnw1 : dlookup (updateNewState oracle store project_id change_request snapshot).roles q =
      dlookup snapshot.roles q := by
    rw [updateNewState]
    exact hnew.1
  have hnw2 : dlookup (updateNewState oracle store project_id change_request
      snapshot).summaries q =
      dlookup (updateRegenState oracle store project_id change_request snapshot).2 q := by
    rw [updateNewState]
    exact hnew.2.1
  have hnw3 : q ∉ (updateNewState oracle store project_id change_request
      snapshot).created.map Prod.fst := by
    rw [updateNewState]
    exact hnew.2.2 (by intro hx; cases hx)
  refine ⟨?_, hnw1, hnw2.trans hrg2⟩
  rw [List.map_append]
  intro hmem
  rcases List.mem_append.mp hmem with hm | hm
  · exact hrg1 hm
  · exact hnw3 hm

/-- The witness oracle for C8: the parsed change spec names a.ts as
impacted and c.ts as new. -/
def oracleC8 : Oracle :=
  { trivOracle with
    change_spec_parse := fun _ => some
      { impactedFiles := some [("a.ts".toList)]
        files_to_update := none
        newFiles := some [("c.ts".toList)] } }

def storeB : Str → Str → Option Str := fun _ _ => some ("old code".toList)

/-- Witness for C8: in the two-file project, the uninvolved file b.ts
is not rewritten and keeps its role and summary. -/
theorem update_untouched_file_witness :
    (("b.ts".toList) ∉ ((handle_update_project oracleC8 storeB ("p2".toList)
        ("typescript".toList) ("change a".toList) snapB).writesOf.map Prod.fst)) ∧
    dlookup (handle_update_project oracleC8 storeB ("p2".toList) ("typescript".toList)
        ("change a".toList) snapB).rolesOf ("b.ts".toList) =
      dlookup snapB.roles ("b.ts".toList) ∧
    dlookup (handle_update_project oracleC8 storeB ("p2".toList) ("typescript".toList)
        ("change a".toList) snapB).summariesOf ("b.ts".toList) =
      dlookup snapB.summaries ("b.ts".toList) :=
  update_untouched_file oracleC8 storeB ("p2".toList) ("typescript".toList)
    ("change a".toList) snapB ("b.ts".toList) (by decide) (by decide) (by decide)
